import Mathlib

/-!
Verification of the warranty-contract attrition pipeline (`Attrition.py`).

The program is a linear pipeline: load a CSV table, one-hot encode it with
`pd.get_dummies`, mine frequent itemsets with `apriori` (min_support = 0.1),
derive association rules with `association_rules` (metric = confidence,
min_threshold = 0.2), join the set-valued antecedent/consequent columns into
comma-separated strings, filter the rules by a selected item and a minimum
confidence (`filter_rules`, built on `pandas.Series.str.contains`, which
interprets the selected item as a regular expression), and export the filtered
rules with `to_csv`.

The mining and rule-derivation steps are delegated to the mlxtend library,
whose code is not part of this repository; those steps are modelled from the
specification (see the doc comments marked "Modelled from the spec").  All
rational arithmetic is carried out in ℚ; divisions are written with
`Rat.divInt` / `mkRat` (proved equal to `/`) so that every definition
evaluates by kernel reduction.
-/

namespace Attrition

/-! ## Rule filtering (`filter_rules`, Attrition.py lines 63-68)

`pandas.Series.str.contains(pat)` performs `re.search(pat, text)` on each
entry: the selected item is interpreted as a regular expression, not as a
literal substring.  `matchHere` / `reSearch` model the fragment of Python
regular expressions consisting of literal characters and the `.` wildcard,
which is exact on every pattern used in the theorems below; `litSubstr`
models literal substring containment, and the two coincide on
metacharacter-free patterns. -/

/-- One regular-expression token (a literal character, or the wildcard `.`)
matched against one text character; `matchHere pat s` holds when `pat`
matches a prefix of `s`. -/
def matchHere : List Char → List Char → Bool
  | [], _ => true
  | _ :: _, [] => false
  | p :: ps, c :: cs => (p == '.' || p == c) && matchHere ps cs

/-- Python `re.search` on the modelled pattern fragment: the pattern matches
at some position of the text. -/
def reSearch (pat : List Char) : List Char → Bool
  | [] => matchHere pat []
  | c :: t => matchHere pat (c :: t) || reSearch pat t

/-- Model of `series.str.contains(pat)` applied to one entry `s`
(`re.search(pat, s)` converted to a boolean). -/
def strContains (s pat : String) : Bool :=
  reSearch pat.data s.data

/-- Literal substring containment: `pat` occurs contiguously in the text. -/
def litSubstr (pat : List Char) : List Char → Bool
  | [] => pat.isEmpty
  | c :: t => pat.isPrefixOf (c :: t) || litSubstr pat t

/-- The characters that are metacharacters of Python regular expressions. -/
def pythonMetachars : List Char :=
  ['.', '^', '$', '*', '+', '?', '\x7b', '\x7d', '[', ']', '\\', '|', '(', ')']

/-- A row of the formatted rule table: antecedents/consequents already joined
into comma-separated strings (Attrition.py lines 31-32), together with the
metric columns produced by `association_rules`. -/
structure FRule where
  antecedents : String
  consequents : String
  antecedentSupport : ℚ
  consequentSupport : ℚ
  support : ℚ
  confidence : ℚ
  lift : ℚ
  leverage : ℚ
  conviction : ℚ
  zhangsMetric : ℚ
deriving DecidableEq

/-- The sidebar radio selector: filter on the antecedents or the consequents
column (Attrition.py line 55). -/
inductive FilterField
  | antecedents
  | consequents
deriving DecidableEq

/-- Column lookup `rules[filter_by]` for one row. -/
def fieldOf (r : FRule) : FilterField → String
  | .antecedents => r.antecedents
  | .consequents => r.consequents

/-- `filter_rules` (Attrition.py lines 63-66): keep the rows whose selected
column matches the selected item under `str.contains`, then keep the rows
whose confidence is at least the threshold. -/
def filter_rules (rules : List FRule) (filterBy : FilterField)
    (selectedItem : String) (minConfidence : ℚ) : List FRule :=
  (rules.filter (fun r => strContains (fieldOf r filterBy) selectedItem)).filter
    (fun r => decide (minConfidence ≤ r.confidence))

/-- Scenario rule with confidence 1 whose consequents text contains "Yes". -/
def scYes1 : FRule :=
  { antecedents := "Region_North", consequents := "Cancelled_Yes"
    antecedentSupport := 1, consequentSupport := 1, support := 1
    confidence := 1, lift := 1, leverage := 0, conviction := 0
    zhangsMetric := 0 }

/-- Scenario rule with confidence 1/2 whose consequents text contains "Yes". -/
def scYes05 : FRule :=
  { antecedents := "Region_South", consequents := "Cancelled_Yes"
    antecedentSupport := 1, consequentSupport := 1, support := 1
    confidence := mkRat 1 2, lift := 1, leverage := 0, conviction := 0
    zhangsMetric := 0 }

/-- Rule whose consequents text is "Yas": matched by the pattern "Y.s" even
though it does not contain "Y.s" literally. -/
def crex : FRule :=
  { antecedents := "Region_North", consequents := "Yas"
    antecedentSupport := 1, consequentSupport := 1, support := 1
    confidence := 1, lift := 1, leverage := 0, conviction := 0
    zhangsMetric := 0 }

/-- Rule whose antecedents item set is the single item "Cancelled_No"; the
item "No" occurs inside that longer item name. -/
def crNo : FRule :=
  { antecedents := "Cancelled_No", consequents := "Region_South"
    antecedentSupport := 1, consequentSupport := 1, support := 1
    confidence := 1, lift := 1, leverage := 0, conviction := 0
    zhangsMetric := 0 }

/-! ## Kernel-computable rational arithmetic

`Rat.mul`, `Rat.sub` and `Rat.inv` are irreducible, so values built with them
do not evaluate under `decide`.  The wrappers below are built from `mkRat` and
`Rat.divInt`, which do evaluate, and are proved equal to `*`, `-`, `/`. -/

/-- Product of two rationals, computed on numerators and denominators. -/
def qmul (a b : ℚ) : ℚ := mkRat (a.num * b.num) (a.den * b.den)

/-- Difference of two rationals, computed on numerators and denominators. -/
def qsub (a b : ℚ) : ℚ := mkRat (a.num * b.den - b.num * a.den) (a.den * b.den)

/-- Quotient of two rationals, computed on numerators and denominators
(0 when the divisor is 0, as in ℚ). -/
def qdiv (a b : ℚ) : ℚ := Rat.divInt (a.num * b.den) (b.num * a.den)

/-! ## Itemset mining and rule derivation (Attrition.py lines 27-28)

`apriori` and `association_rules` are calls into the mlxtend library, whose
source is not part of this repository; both are modelled from the spec. -/

/-- The boolean transaction matrix produced by the encoder: a set of
indicator-column identifiers, and one row per transaction, each row being the
set of columns that are true in it. -/
structure BoolMatrix where
  cols : Finset ℕ
  rows : List (Finset ℕ)
deriving DecidableEq

/-- Support of an itemset: the fraction of transaction rows that contain all
items of the itemset (0 when there are no rows). -/
def support (M : BoolMatrix) (S : Finset ℕ) : ℚ :=
  mkRat (M.rows.countP (fun r => decide (S ⊆ r))) M.rows.length

/-- Modelled from the spec: `mlxtend.frequent_patterns.apriori` is not under
src/; per the spec the miner returns all non-empty subsets of the indicator
columns whose support is at least the minimum support threshold. -/
def apriori (M : BoolMatrix) (min_support : ℚ) : Finset (Finset ℕ) :=
  M.cols.powerset.filter (fun S => S.Nonempty ∧ min_support ≤ support M S)

/-- A derived association rule with its interestingness metrics
(antecedent → consequent split of a frequent itemset). -/
structure ARule where
  antecedents : Finset ℕ
  consequents : Finset ℕ
  antecedentSupport : ℚ
  consequentSupport : ℚ
  support : ℚ
  confidence : ℚ
  lift : ℚ
  leverage : ℚ
deriving DecidableEq

/-- The rule obtained by splitting the frequent itemset `I` into the
antecedent `A` and the consequent `I \ A`, with the metrics of the spec:
confidence = joint support / antecedent support, lift = confidence /
consequent support, leverage = joint support − antecedent support ×
consequent support. -/
def ruleOfSplit (M : BoolMatrix) (I A : Finset ℕ) : ARule :=
  { antecedents := A
    consequents := I \ A
    antecedentSupport := support M A
    consequentSupport := support M (I \ A)
    support := support M I
    confidence := qdiv (support M I) (support M A)
    lift := qdiv (qdiv (support M I) (support M A)) (support M (I \ A))
    leverage := qsub (support M I) (qmul (support M A) (support M (I \ A))) }

/-- Modelled from the spec: `mlxtend.frequent_patterns.association_rules` is
not under src/; per the spec the deriver splits each frequent itemset into
every non-empty antecedent / non-empty consequent partition and keeps the
rules whose confidence reaches the minimum threshold. -/
def association_rules (M : BoolMatrix) (freq : Finset (Finset ℕ))
    (min_threshold : ℚ) : Finset ARule :=
  freq.biUnion (fun I =>
    (I.powerset.filter (fun A =>
      A.Nonempty ∧ A ≠ I ∧ min_threshold ≤ qdiv (support M I) (support M A))).image
      (fun A => ruleOfSplit M I A))

/-- The pipeline's rule set as configured in the program: min_support = 0.1,
confidence threshold = 0.2 (Attrition.py lines 27-28). -/
def rulesOf (M : BoolMatrix) : Finset ARule :=
  association_rules M (apriori M (mkRat 1 10)) (mkRat 2 10)

/-- Example matrix: two indicator columns, three transactions. -/
def exM : BoolMatrix := ⟨{0, 1}, [{0, 1}, {0, 1}, {0}]⟩

/-- Example matrix with a rule whose lift is below 1: columns 0 and 1 each
have support 3/4, their joint support is 1/2. -/
def exM2 : BoolMatrix := ⟨{0, 1}, [{0, 1}, {0, 1}, {0}, {1}]⟩

/-- Example matrix on which no non-empty itemset reaches support 1/10:
a single indicator column that is false in the only transaction. -/
def exMempty : BoolMatrix := ⟨{0}, [∅]⟩

/-! ## Categorical encoder (`pd.get_dummies`, Attrition.py line 24)

`pd.get_dummies` expands only the object/string-typed columns into boolean
indicator columns (one per distinct observed value, missing values getting
all-zero indicators); numeric columns are passed through unchanged. -/

/-- The content of one raw-table column: numeric, or categorical (strings);
`none` is a missing value (NaN). -/
inductive ColData
  | num (xs : List (Option ℚ))
  | cat (xs : List (Option String))
deriving DecidableEq

/-- One column of the raw table. -/
structure RawCol where
  name : String
  data : ColData
deriving DecidableEq

/-- The distinct non-missing values observed in a categorical column, in
order of first appearance. -/
def catDistinct (xs : List (Option String)) : List String :=
  (xs.filterMap id).dedup

/-- Whether a column is numeric (left untouched by `pd.get_dummies`). -/
def isNumCol (c : RawCol) : Bool :=
  match c.data with
  | .num _ => true
  | .cat _ => false

/-- The boolean indicator columns `pd.get_dummies` derives from one column:
none for a numeric column; for a categorical column, one column named
`name_value` per distinct observed value, true exactly in the rows holding
that value. -/
def dummyCols (c : RawCol) : List (String × List Bool) :=
  match c.data with
  | .num _ => []
  | .cat xs =>
    (catDistinct xs).map
      (fun v => (c.name ++ "_" ++ v, xs.map (fun o => decide (o = some v))))

/-- The encoder's output: untouched numeric columns plus all indicator
columns. -/
structure EncodedTable where
  passthrough : List RawCol
  indicators : List (String × List Bool)
deriving DecidableEq

/-- Model of `pd.get_dummies` on a whole table. -/
def get_dummies (t : List RawCol) : EncodedTable :=
  ⟨t.filter (fun c => isNumCol c), t.flatMap dummyCols⟩

/-- Sum, in row `i`, of the indicator columns derived from column `c`
(a boolean counted as 1 when true). -/
def indicatorRowSum (c : RawCol) (i : ℕ) : ℕ :=
  ((dummyCols c).map (fun d => if d.2.getD i false then 1 else 0)).sum

/-- Example numeric column with one non-missing row; `pd.get_dummies` leaves
it unencoded. -/
def exNumCol : RawCol := ⟨"Age", .num [some 30]⟩

/-! ## Rule formatter (Attrition.py lines 31-32)

`rules['antecedents'] = rules['antecedents'].apply(lambda x: ', '.join(list(x)))`
(and the same for consequents) joins each set-valued cell into a
comma-separated string and assigns the result back onto the same columns of
the same `rules` frame: the set-valued collection is overwritten in place. -/

/-- One cell of the antecedents/consequents columns: a set of items (listed
in iteration order), or already-joined display text. -/
inductive Cell
  | items (xs : List String)
  | text (s : String)
deriving DecidableEq

/-- `', '.join(list(x))` on one cell.  On a set-valued cell, `list(x)` lists
the items and the join produces the comma-separated text; on a string,
`list(x)` lists its characters, so the join interleaves ", " between the
characters (the step is not idempotent). -/
def joinCell : Cell → Cell
  | .items xs => .text (String.intercalate ", " xs)
  | .text s => .text (String.intercalate ", " (s.data.map (fun c => String.mk [c])))

/-- The columns of the rules frame that the formatting step reads and
writes, plus one metric column standing for all the numeric columns. -/
structure RFrame where
  antecedents : List Cell
  consequents : List Cell
  confidence : List ℚ
deriving DecidableEq

/-- Lines 31-32 of Attrition.py as a state transformer on the `rules`
frame: both item columns are joined and written back, the metric columns
are untouched. -/
def formatRulesStep (fr : RFrame) : RFrame :=
  { fr with
    antecedents := fr.antecedents.map joinCell
    consequents := fr.consequents.map joinCell }

/-- Whether a cell is display text. -/
def isTextCell : Cell → Bool
  | .items _ => false
  | .text _ => true

/-- Example rules frame holding one rule with set-valued fields. -/
def exFrame : RFrame :=
  ⟨[.items ["Region_North"]], [.items ["Cancelled_Yes"]], [1]⟩

/-! ## CSV export (`to_csv`, Attrition.py line 74)

`DataFrame.to_csv(index=False)` writes a header line and one line per row,
separating fields with commas, ending every line with a newline, and quoting
(with doubled inner quotes) exactly the fields that contain a comma, a
quote, or a line break.  `pRun` is a standard delimited-text reader over the
same conventions. -/

/-- Does a CSV field need quoting (comma, quote or line break inside)? -/
def csvNeedsQuote (f : List Char) : Bool :=
  f.any (fun c => c == ',' || c == '"' || c == '\n' || c == '\r')

/-- Body of a quoted CSV field: every quote is doubled. -/
def escBody : List Char → List Char
  | [] => []
  | c :: t => if c = '"' then '"' :: '"' :: escBody t else c :: escBody t

/-- One serialized CSV field: quoted exactly when needed. -/
def escField (f : List Char) : List Char :=
  if csvNeedsQuote f then '"' :: (escBody f ++ ['"']) else f

/-- One serialized CSV record: fields joined with commas. -/
def writeRow : List (List Char) → List Char
  | [] => []
  | [f] => escField f
  | f :: g :: t => escField f ++ ',' :: writeRow (g :: t)

/-- Serialized CSV text: one record per line, each line ended by a newline,
as `to_csv` produces. -/
def writeCSV : List (List (List Char)) → List Char
  | [] => []
  | r :: rs => writeRow r ++ '\n' :: writeCSV rs

/-- Reader states: inside an unquoted field, inside a quoted field, or just
after a closing quote (where a second quote means an escaped quote). -/
inductive PState
  | unq
  | quo
  | qcl
deriving DecidableEq

/-- A standard delimited-text reader: one character at a time, tracking the
current field, the current record and the reader state. -/
def pRun : List Char → PState → List Char → List (List Char) → List (List (List Char))
  | [], _, f, r => if f = [] ∧ r = [] then [] else [r ++ [f]]
  | c :: cs, .unq, f, r =>
    if c = ',' then pRun cs .unq [] (r ++ [f])
    else if c = '\n' then (r ++ [f]) :: pRun cs .unq [] []
    else if c = '"' ∧ f = [] then pRun cs .quo [] r
    else pRun cs .unq (f ++ [c]) r
  | c :: cs, .quo, f, r =>
    if c = '"' then pRun cs .qcl f r
    else pRun cs .quo (f ++ [c]) r
  | c :: cs, .qcl, f, r =>
    if c = '"' then pRun cs .quo (f ++ ['"']) r
    else if c = ',' then pRun cs .unq [] (r ++ [f])
    else if c = '\n' then (r ++ [f]) :: pRun cs .unq [] []
    else pRun cs .unq (f ++ [c]) r

/-- CSV serialization of a table of string fields. -/
def writeCSVs (rows : List (List String)) : String :=
  ⟨writeCSV (rows.map (fun r => r.map String.data))⟩

/-- CSV parsing of a text back into a table of string fields. -/
def parseCSVs (s : String) : List (List String) :=
  (pRun s.data .unq [] []).map (fun r => r.map String.mk)

/-- The header row written by `to_csv(index=False)`: the column names of the
rules frame. -/
def csvHeader : List String :=
  ["antecedents", "consequents", "antecedent support", "consequent support",
   "support", "confidence", "lift", "leverage", "conviction", "zhangs_metric"]

/-- One data row of the exported file: the two text fields followed by the
rendered metric fields. -/
def ruleRow (r : FRule) : List String :=
  [r.antecedents, r.consequents, toString r.antecedentSupport,
   toString r.consequentSupport, toString r.support, toString r.confidence,
   toString r.lift, toString r.leverage, toString r.conviction,
   toString r.zhangsMetric]

/-- `filtered_rules.to_csv(index=False)` (Attrition.py line 74): header line
then one line per filtered rule. -/
def to_csv (rs : List FRule) : String :=
  writeCSVs (csvHeader :: rs.map ruleRow)

/-! ## Rational bridge lemmas -/

theorem rat_den_ne_zero (q : ℚ) : ((q.den : ℚ) ≠ 0) :=
  Nat.cast_ne_zero.mpr q.den_nz

theorem rat_num_eq (q : ℚ) : ((q.num : ℚ) = q * q.den) :=
  (div_eq_iff (rat_den_ne_zero q)).mp (Rat.num_div_den q)

theorem qmul_eq (a b : ℚ) : qmul a b = a * b := by
  rw [qmul, Rat.mkRat_eq_div]
  push_cast
  rw [div_eq_iff (mul_ne_zero (rat_den_ne_zero a) (rat_den_ne_zero b)),
    rat_num_eq a, rat_num_eq b]
  ring

theorem qsub_eq (a b : ℚ) : qsub a b = a - b := by
  rw [qsub, Rat.mkRat_eq_div]
  push_cast
  rw [div_eq_iff (mul_ne_zero (rat_den_ne_zero a) (rat_den_ne_zero b)),
    rat_num_eq a, rat_num_eq b]
  ring

theorem qdiv_eq (a b : ℚ) : qdiv a b = a / b := by
  rw [qdiv, Rat.divInt_eq_div]
  push_cast
  rcases eq_or_ne b 0 with hb | hb
  · subst hb; simp
  · have hbn : ((b.num : ℚ) ≠ 0) := by
      exact_mod_cast Rat.num_ne_zero.mpr hb
    rw [div_eq_div_iff (mul_ne_zero hbn (rat_den_ne_zero a)) hb,
      rat_num_eq a, rat_num_eq b]
    ring

/-! ## Support lemmas -/

theorem support_eq_div (M : BoolMatrix) (S : Finset ℕ) :
    support M S =
      ((M.rows.countP (fun r => decide (S ⊆ r)) : ℚ) / (M.rows.length : ℚ)) := by
  rw [support, Rat.mkRat_eq_div]
  push_cast
  rfl

theorem support_nonneg (M : BoolMatrix) (S : Finset ℕ) : 0 ≤ support M S := by
  rw [support_eq_div]
  positivity

theorem support_le_one (M : BoolMatrix) (S : Finset ℕ) : support M S ≤ 1 := by
  rw [support_eq_div]
  rcases Nat.eq_zero_or_pos M.rows.length with h | h
  · have : M.rows.countP (fun r => decide (S ⊆ r)) = 0 :=
      Nat.le_zero.mp (h ▸ M.rows.countP_le_length _)
    simp [this]
  · rw [div_le_one (by exact_mod_cast h)]
    exact_mod_cast M.rows.countP_le_length _

theorem support_mono (M : BoolMatrix) {S T : Finset ℕ} (h : T ⊆ S) :
    support M S ≤ support M T := by
  rw [support_eq_div, support_eq_div]
  have hc : M.rows.countP (fun r => decide (S ⊆ r)) ≤
      M.rows.countP (fun r => decide (T ⊆ r)) := by
    refine List.countP_mono_left (fun r _ hr => ?_)
    simp only [decide_eq_true_eq] at hr ⊢
    exact h.trans hr
  gcongr

theorem mkRat_one_ten_pos : (0 : ℚ) < mkRat 1 10 := by
  rw [Rat.mkRat_eq_div]; norm_num

theorem mem_apriori {M : BoolMatrix} {τ : ℚ} {S : Finset ℕ} :
    S ∈ apriori M τ ↔ S ⊆ M.cols ∧ S.Nonempty ∧ τ ≤ support M S := by
  simp [apriori, Finset.mem_filter, Finset.mem_powerset, and_assoc]

theorem mem_association_rules {M : BoolMatrix} {freq : Finset (Finset ℕ)} {τ : ℚ}
    {r : ARule} :
    r ∈ association_rules M freq τ ↔
    ∃ I ∈ freq, ∃ A, A ⊆ I ∧ A.Nonempty ∧ A ≠ I ∧
      τ ≤ qdiv (support M I) (support M A) ∧ r = ruleOfSplit M I A := by
  simp only [association_rules, Finset.mem_biUnion, Finset.mem_image,
    Finset.mem_filter, Finset.mem_powerset]
  constructor
  · rintro ⟨I, hI, A, ⟨hAI, hA, hAne, hτ⟩, rfl⟩
    exact ⟨I, hI, A, hAI, hA, hAne, hτ, rfl⟩
  · rintro ⟨I, hI, A, hAI, hA, hAne, hτ, rfl⟩
    exact ⟨I, hI, A, ⟨hAI, hA, hAne, hτ⟩, rfl⟩

/-! ## Claims C2, C3, C4, C6, C8 -/

/-- Claim C2: every itemset returned by the itemset miner (modelled from the
spec, configured minimum support 1/10) has a support value between 0 and 1
that is at least the minimum support threshold. -/
theorem c2_itemset_support_bounds (M : BoolMatrix) (S : Finset ℕ)
    (hS : S ∈ apriori M (mkRat 1 10)) :
    0 ≤ support M S ∧ support M S ≤ 1 ∧ mkRat 1 10 ≤ support M S :=
  ⟨support_nonneg M S, support_le_one M S, (mem_apriori.mp hS).2.2⟩

/-- Witness for C2 at a concrete matrix and itemset. -/
theorem c2_itemset_support_bounds_witness :
    {0, 1} ∈ apriori exM (mkRat 1 10) ∧
      (0 ≤ support exM {0, 1} ∧ support exM {0, 1} ≤ 1 ∧
        mkRat 1 10 ≤ support exM {0, 1}) :=
  ⟨by decide, c2_itemset_support_bounds exM {0, 1} (by decide)⟩

/-- Claim C4: downward closure of the itemset miner (modelled from the
spec): every non-empty subset of a frequent itemset is frequent. -/
theorem c4_downward_closure (M : BoolMatrix) (τ : ℚ) (S T : Finset ℕ)
    (hS : S ∈ apriori M τ) (hTS : T ⊆ S) (hT : T.Nonempty) : T ∈ apriori M τ := by
  obtain ⟨hsub, _, hsupp⟩ := mem_apriori.mp hS
  exact mem_apriori.mpr ⟨hTS.trans hsub, hT, hsupp.trans (support_mono M hTS)⟩

/-- Witness for C4 at a concrete matrix, itemset and subset. -/
theorem c4_downward_closure_witness :
    {0, 1} ∈ apriori exM (mkRat 1 10) ∧ {0} ∈ apriori exM (mkRat 1 10) :=
  ⟨by decide,
    c4_downward_closure exM (mkRat 1 10) {0, 1} {0} (by decide) (by decide)
      (by decide)⟩

/-- Claim C3: every rule produced by the rule deriver (modelled from the
spec, run on the miner's output with confidence threshold 2/10 as configured)
has a confidence between 0 and 1, and only rules with confidence at least
2/10 are retained. -/
theorem c3_rule_confidence_bounds (M : BoolMatrix) (r : ARule)
    (hr : r ∈ rulesOf M) :
    0 ≤ r.confidence ∧ r.confidence ≤ 1 ∧ mkRat 2 10 ≤ r.confidence := by
  obtain ⟨I, hI, A, hAI, hA, hAne, hτ, rfl⟩ := mem_association_rules.mp hr
  have hIs : mkRat 1 10 ≤ support M I := (mem_apriori.mp hI).2.2
  have hI0 : 0 < support M I := lt_of_lt_of_le mkRat_one_ten_pos hIs
  have hAS : support M I ≤ support M A := support_mono M hAI
  have hA0 : 0 < support M A := lt_of_lt_of_le hI0 hAS
  have hconf : (ruleOfSplit M I A).confidence = support M I / support M A := by
    simp [ruleOfSplit, qdiv_eq]
  refine ⟨?_, ?_, ?_⟩
  · rw [hconf]; positivity
  · rw [hconf, div_le_one hA0]; exact hAS
  · rw [hconf, ← qdiv_eq]; exact hτ

/-- Witness for C3 at a concrete matrix and rule. -/
theorem c3_rule_confidence_bounds_witness :
    ruleOfSplit exM {0, 1} {0} ∈ rulesOf exM ∧
      (0 ≤ (ruleOfSplit exM {0, 1} {0}).confidence ∧
        (ruleOfSplit exM {0, 1} {0}).confidence ≤ 1 ∧
        mkRat 2 10 ≤ (ruleOfSplit exM {0, 1} {0}).confidence) :=
  ⟨by decide, c3_rule_confidence_bounds exM (ruleOfSplit exM {0, 1} {0}) (by decide)⟩

/-- Claim C6: for every rule produced by the rule deriver (modelled from the
spec), lift above 1 forces positive leverage and lift below 1 forces negative
leverage. -/
theorem c6_lift_leverage_sign (M : BoolMatrix) (r : ARule) (hr : r ∈ rulesOf M) :
    (1 < r.lift → 0 < r.leverage) ∧ (r.lift < 1 → r.leverage < 0) := by
  obtain ⟨I, hI, A, hAI, hA, hAne, hτ, rfl⟩ := mem_association_rules.mp hr
  have hIs : mkRat 1 10 ≤ support M I := (mem_apriori.mp hI).2.2
  have hI0 : 0 < support M I := lt_of_lt_of_le mkRat_one_ten_pos hIs
  have hA0 : 0 < support M A := lt_of_lt_of_le hI0 (support_mono M hAI)
  have hC0 : 0 < support M (I \ A) :=
    lt_of_lt_of_le hI0 (support_mono M Finset.sdiff_subset)
  have hlift : (ruleOfSplit M I A).lift =
      support M I / (support M A * support M (I \ A)) := by
    simp [ruleOfSplit, qdiv_eq, div_div]
  have hlev : (ruleOfSplit M I A).leverage =
      support M I - support M A * support M (I \ A) := by
    simp [ruleOfSplit, qsub_eq, qmul_eq]
  constructor
  · intro h
    rw [hlift, one_lt_div (by positivity)] at h
    rw [hlev, sub_pos]
    exact h
  · intro h
    rw [hlift, div_lt_one (by positivity)] at h
    rw [hlev, sub_neg]
    exact h

/-- Witness for C6 at a concrete matrix and a rule whose lift is below 1. -/
theorem c6_lift_leverage_sign_witness :
    ruleOfSplit exM2 {0, 1} {0} ∈ rulesOf exM2 ∧
      ((1 < (ruleOfSplit exM2 {0, 1} {0}).lift →
          0 < (ruleOfSplit exM2 {0, 1} {0}).leverage) ∧
        ((ruleOfSplit exM2 {0, 1} {0}).lift < 1 →
          (ruleOfSplit exM2 {0, 1} {0}).leverage < 0)) :=
  ⟨by decide, c6_lift_leverage_sign exM2 (ruleOfSplit exM2 {0, 1} {0}) (by decide)⟩

/-- Claim C8: when no non-empty itemset reaches the minimum support
threshold, the miner (modelled from the spec) returns the empty result and
the rule deriver completes with an empty rule set; both are total functions,
so no exception is possible. -/
theorem c8_empty_result_no_throw (M : BoolMatrix) (τs τc : ℚ)
    (h : ∀ S ∈ M.cols.powerset, S ≠ ∅ → support M S < τs) :
    apriori M τs = ∅ ∧ association_rules M (apriori M τs) τc = ∅ := by
  have h1 : apriori M τs = ∅ := by
    refine Finset.filter_eq_empty_iff.mpr ?_
    rintro S hS ⟨hne, hle⟩
    exact absurd hle (not_le.mpr (h S hS (Finset.nonempty_iff_ne_empty.mp hne)))
  exact ⟨h1, by rw [h1]; simp [association_rules]⟩

/-- Witness for C8 at a concrete matrix with no frequent itemset. -/
theorem c8_empty_result_no_throw_witness :
    (∀ S ∈ exMempty.cols.powerset, S ≠ ∅ → support exMempty S < mkRat 1 10) ∧
      (apriori exMempty (mkRat 1 10) = ∅ ∧
        association_rules exMempty (apriori exMempty (mkRat 1 10)) (mkRat 2 10) = ∅) :=
  ⟨by decide, c8_empty_result_no_throw exMempty (mkRat 1 10) (mkRat 2 10) (by decide)⟩

/-! ## Filtering: claims C1 and C10 -/

theorem matchHere_eq_isPrefixOf (pat : List Char) (hdot : '.' ∉ pat) :
    ∀ s : List Char, matchHere pat s = pat.isPrefixOf s := by
  induction pat with
  | nil => intro s; cases s <;> rfl
  | cons p ps ih =>
    intro s
    have hp : p ≠ '.' := fun h => hdot (h ▸ List.mem_cons_self p ps)
    have hps : '.' ∉ ps := fun h => hdot (List.mem_cons_of_mem p h)
    cases s with
    | nil => rfl
    | cons c cs =>
      have hpd : (p == '.') = false := beq_eq_false_iff_ne.mpr hp
      simp [matchHere, List.isPrefixOf, hpd, ih hps cs]

theorem reSearch_eq_litSubstr (pat : List Char) (hdot : '.' ∉ pat) :
    ∀ s : List Char, reSearch pat s = litSubstr pat s := by
  intro s
  induction s with
  | nil =>
    rw [reSearch, litSubstr, matchHere_eq_isPrefixOf pat hdot]
    cases pat <;> rfl
  | cons c cs ih =>
    rw [reSearch, litSubstr, matchHere_eq_isPrefixOf pat hdot, ih]

/-- Claim C1 (amended): when the selected item contains no regular-expression
metacharacter, `filter_rules` returns exactly the rules whose selected
field's text contains the item as a literal substring and whose confidence
is at least the threshold; and the spec's scenario (field = consequents,
value = "Yes", minimum confidence 9/10, one confidence-1 and one
confidence-1/2 rule) returns exactly the confidence-1 rule.  The restriction
to metacharacter-free items is forced by `str.contains` interpreting the
item as a regular expression (see `c1_filter_rules_counterexample`). -/
theorem c1_filter_rules_literal :
    (∀ (rules : List FRule) (fb : FilterField) (item : String) (mc : ℚ),
      (∀ c ∈ item.data, c ∉ pythonMetachars) →
      filter_rules rules fb item mc =
        rules.filter (fun r =>
          litSubstr item.data (fieldOf r fb).data && decide (mc ≤ r.confidence)))
    ∧ filter_rules [scYes1, scYes05] .consequents "Yes" (mkRat 9 10) = [scYes1] := by
  constructor
  · intro rules fb item mc h
    have hdot : '.' ∉ item.data := fun hd => (h '.' hd) (by decide)
    unfold filter_rules
    rw [List.filter_filter]
    refine List.filter_congr ?_
    intro r _
    rw [strContains, reSearch_eq_litSubstr _ hdot, Bool.and_comm]
  · decide

/-- Witness for the universally quantified part of C1's amended theorem. -/
theorem c1_filter_rules_literal_witness :
    (∀ c ∈ ("Yes" : String).data, c ∉ pythonMetachars) ∧
      filter_rules [scYes1, scYes05] .consequents "Yes" (mkRat 9 10) =
        List.filter
          (fun r =>
            litSubstr ("Yes" : String).data (fieldOf r .consequents).data &&
              decide (mkRat 9 10 ≤ r.confidence))
          [scYes1, scYes05] :=
  ⟨by decide,
    c1_filter_rules_literal.1 [scYes1, scYes05] .consequents "Yes" (mkRat 9 10)
      (by decide)⟩

/-- Counterexample to C1 as stated: with the target value "Y.s" (the dot is
a regular-expression wildcard for `str.contains`), `filter_rules` returns a
rule whose consequents text "Yas" does not contain "Y.s" as a substring, so
the result is not the subset of rules whose field text contains the value. -/
theorem c1_filter_rules_counterexample :
    filter_rules [crex] .consequents "Y.s" 0 = [crex]
    ∧ ¬ (("Y.s" : String).data <:+: crex.consequents.data)
    ∧ litSubstr ("Y.s" : String).data crex.consequents.data = false := by
  decide

/-- Claim C10: there is a rule collection and a selected item for which
`filter_rules` returns a rule whose selected field does not contain the item
as a whole set member: the item "No" is not a member of the antecedent item
set (whose single item is "Cancelled_No", joined verbatim into the field
text), yet the rule is returned because matching is pattern containment over
the joined text. -/
theorem c10_containment_not_membership :
    filter_rules [crNo] .antecedents "No" 0 = [crNo]
    ∧ crNo.antecedents = String.intercalate ", " ["Cancelled_No"]
    ∧ "No" ∉ ["Cancelled_No"] := by
  decide

/-! ## Encoder: claim C5 -/

theorem sum_map_ite_eq_count {α : Type} [DecidableEq α] (x : α) (l : List α) :
    (l.map (fun v => if x = v then 1 else 0)).sum = l.count x := by
  induction l with
  | nil => rfl
  | cons a t ih =>
    rw [List.map_cons, List.sum_cons, ih, List.count_cons]
    by_cases h : x = a
    · subst h
      simp only [if_pos rfl, beq_self_eq_true, if_true]
      exact Nat.add_comm 1 _
    · have hb : (x == a) = false := beq_eq_false_iff_ne.mpr h
      have h2 : a ≠ x := fun hax => h hax.symm
      simp [h, hb, h2]

/-- Claim C5 (amended): for every categorical column, the encoder emits one
boolean indicator column per distinct observed value, those indicator
columns appear in the encoder's output table, and in each row they sum to 1
when the row's value is present and to 0 when it is missing.  The
restriction to categorical columns is forced by `pd.get_dummies` passing
numeric columns through unencoded (see `c5_one_hot_counterexample`). -/
theorem c5_one_hot_categorical (nm : String) (xs : List (Option String)) (i : ℕ)
    (hi : i < xs.length) (t : List RawCol) (ht : (⟨nm, .cat xs⟩ : RawCol) ∈ t) :
    (dummyCols ⟨nm, .cat xs⟩).length = (catDistinct xs).length
    ∧ indicatorRowSum ⟨nm, .cat xs⟩ i =
        (if (xs.getD i none).isSome then 1 else 0)
    ∧ dummyCols ⟨nm, .cat xs⟩ ⊆ (get_dummies t).indicators := by
  have hd : dummyCols ⟨nm, .cat xs⟩ =
      (catDistinct xs).map
        (fun v => (nm ++ "_" ++ v, xs.map (fun o => decide (o = some v)))) := rfl
  refine ⟨by rw [hd, List.length_map], ?_, ?_⟩
  · have hget : ∀ v : String,
        (xs.map (fun o => decide (o = some v))).getD i false =
          decide (xs.getD i none = some v) := by
      intro v
      rw [List.getD_eq_getElem _ _ (by simpa using hi), List.getElem_map,
        List.getD_eq_getElem _ _ hi]
    have hstep : indicatorRowSum ⟨nm, .cat xs⟩ i =
        ((catDistinct xs).map
          (fun v => if xs.getD i none = some v then 1 else 0)).sum := by
      rw [indicatorRowSum, hd, List.map_map]
      refine congrArg List.sum (List.map_congr_left (fun v _ => ?_))
      simp only [Function.comp_apply, hget v, decide_eq_true_eq]
    rw [hstep]
    rcases hx : xs.getD i none with _ | x
    · simp [hx]
    · have hmem : x ∈ catDistinct xs := by
        rw [catDistinct, List.mem_dedup]
        refine List.mem_filterMap.mpr ⟨some x, ?_, rfl⟩
        rw [← hx, List.getD_eq_getElem _ _ hi]
        exact List.getElem_mem hi
      simp only [hx, Option.some.injEq, Option.isSome_some, if_true]
      rw [sum_map_ite_eq_count]
      exact List.count_eq_one_of_mem (List.nodup_dedup _) hmem
  · intro d hd2
    exact List.mem_flatMap.mpr ⟨_, ht, hd2⟩

/-- Witness for C5's amended theorem at a concrete categorical column. -/
theorem c5_one_hot_categorical_witness :
    (0 < ([some "North", none] : List (Option String)).length) ∧
    ((⟨"Region", .cat [some "North", none]⟩ : RawCol) ∈
      [(⟨"Region", .cat [some "North", none]⟩ : RawCol)]) ∧
    ((dummyCols ⟨"Region", .cat [some "North", none]⟩).length =
        (catDistinct [some "North", none]).length
      ∧ indicatorRowSum ⟨"Region", .cat [some "North", none]⟩ 0 =
          (if (([some "North", none] : List (Option String)).getD 0 none).isSome
            then 1 else 0)
      ∧ dummyCols ⟨"Region", .cat [some "North", none]⟩ ⊆
          (get_dummies [⟨"Region", .cat [some "North", none]⟩]).indicators) :=
  ⟨by decide, by decide,
    c5_one_hot_categorical "Region" [some "North", none] 0 (by decide)
      [⟨"Region", .cat [some "North", none]⟩] (by decide)⟩

/-- Counterexample to C5 as stated: a numeric column gets no indicator
columns from `pd.get_dummies`, so in a row where that column has a
(non-missing) value the indicator columns derived from it sum to 0, not 1. -/
theorem c5_one_hot_counterexample :
    dummyCols exNumCol = []
    ∧ indicatorRowSum exNumCol 0 ≠ 1
    ∧ exNumCol.data = ColData.num [some 30] := by
  refine ⟨rfl, by decide, rfl⟩

/-! ## Formatter: claim C9 -/

/-- Claim C9 (amended): the formatting step computes each formatted cell as
a pure function (`joinCell`, joining the set's items with ", ") of the
corresponding set-valued cell and leaves the metric columns untouched, but
it writes the joined text back onto the antecedents/consequents columns of
the same rules frame; the set-valued collection is overwritten, not left
unchanged. -/
theorem c9_format_step_frame (fr : RFrame) :
    (formatRulesStep fr).confidence = fr.confidence
    ∧ (formatRulesStep fr).antecedents = fr.antecedents.map joinCell
    ∧ (formatRulesStep fr).consequents = fr.consequents.map joinCell
    ∧ ∀ xs : List String,
        joinCell (.items xs) = .text (String.intercalate ", " xs) :=
  ⟨rfl, rfl, rfl, fun _ => rfl⟩

/-- Counterexample to C9 as stated: after the formatting step the program's
`rules` frame differs from the input frame (the claim says the input
collection is left unchanged), every antecedent cell has become display
text (no set-valued collection remains), and the step is not even
idempotent: applied to already-joined text, `', '.join(list(x))` joins its
characters. -/
theorem c9_format_step_counterexample :
    formatRulesStep exFrame ≠ exFrame
    ∧ (∀ c ∈ (formatRulesStep exFrame).antecedents, isTextCell c)
    ∧ formatRulesStep (formatRulesStep exFrame) ≠ formatRulesStep exFrame := by
  decide

/-! ## Exporter: claim C7

Single-step behavior of the reader, then the round trip: reading back what
the writer produced recovers every record and every field. -/

theorem pRun_unq_comma (cs : List Char) (f : List Char) (r : List (List Char)) :
    pRun (',' :: cs) .unq f r = pRun cs .unq [] (r ++ [f]) := rfl

theorem pRun_unq_nl (cs : List Char) (f : List Char) (r : List (List Char)) :
    pRun ('\n' :: cs) .unq f r = (r ++ [f]) :: pRun cs .unq [] [] := rfl

theorem pRun_unq_quote (cs : List Char) (r : List (List Char)) :
    pRun ('"' :: cs) .unq [] r = pRun cs .quo [] r := rfl

theorem pRun_unq_other (c : Char) (cs : List Char) (f : List Char)
    (r : List (List Char)) (h1 : c ≠ ',') (h2 : c ≠ '\n') (h3 : c ≠ '"') :
    pRun (c :: cs) .unq f r = pRun cs .unq (f ++ [c]) r := by
  show (if c = ',' then _ else if c = '\n' then _ else if c = '"' ∧ f = [] then _
    else _) = _
  rw [if_neg h1, if_neg h2, if_neg (fun hc => h3 hc.1)]

theorem pRun_quo_quote (cs : List Char) (f : List Char) (r : List (List Char)) :
    pRun ('"' :: cs) .quo f r = pRun cs .qcl f r := rfl

theorem pRun_quo_other (c : Char) (cs : List Char) (f : List Char)
    (r : List (List Char)) (h : c ≠ '"') :
    pRun (c :: cs) .quo f r = pRun cs .quo (f ++ [c]) r := by
  show (if c = '"' then _ else _) = _
  rw [if_neg h]

theorem pRun_qcl_quote (cs : List Char) (f : List Char) (r : List (List Char)) :
    pRun ('"' :: cs) .qcl f r = pRun cs .quo (f ++ ['"']) r := rfl

theorem pRun_qcl_comma (cs : List Char) (f : List Char) (r : List (List Char)) :
    pRun (',' :: cs) .qcl f r = pRun cs .unq [] (r ++ [f]) := rfl

theorem pRun_qcl_nl (cs : List Char) (f : List Char) (r : List (List Char)) :
    pRun ('\n' :: cs) .qcl f r = (r ++ [f]) :: pRun cs .unq [] [] := rfl

theorem escBody_cons_quote (t : List Char) :
    escBody ('"' :: t) = '"' :: '"' :: escBody t := by
  rw [escBody, if_pos rfl]

theorem escBody_cons (c : Char) (t : List Char) (h : c ≠ '"') :
    escBody (c :: t) = c :: escBody t := by
  rw [escBody, if_neg h]

theorem pRun_escBody (f : List Char) :
    ∀ (rest acc : List Char) (r : List (List Char)),
      pRun (escBody f ++ '"' :: rest) .quo acc r = pRun rest .qcl (acc ++ f) r := by
  induction f with
  | nil =>
    intro rest acc r
    rw [escBody, List.nil_append, pRun_quo_quote, List.append_nil]
  | cons c t ih =>
    intro rest acc r
    by_cases hc : c = '"'
    · subst hc
      rw [escBody_cons_quote, List.cons_append, List.cons_append,
        pRun_quo_quote, pRun_qcl_quote, ih rest (acc ++ ['"']) r,
        List.append_assoc]
      rfl
    · rw [escBody_cons c t hc, List.cons_append, pRun_quo_other c _ acc r hc,
        ih rest (acc ++ [c]) r, List.append_assoc]
      rfl

theorem pRun_unq_content (f : List Char) (hf : csvNeedsQuote f = false) :
    ∀ (rest acc : List Char) (r : List (List Char)),
      pRun (f ++ rest) .unq acc r = pRun rest .unq (acc ++ f) r := by
  induction f with
  | nil => intro rest acc r; rw [List.nil_append, List.append_nil]
  | cons c t ih =>
    intro rest acc r
    rw [csvNeedsQuote, List.any_cons, Bool.or_eq_false_iff] at hf
    obtain ⟨hc, ht⟩ := hf
    simp only [Bool.or_eq_false_iff, beq_eq_false_iff_ne] at hc
    obtain ⟨⟨⟨h1, h2⟩, h3⟩, h4⟩ := hc
    rw [List.cons_append, pRun_unq_other c _ acc r h1 h3 h2,
      ih ht rest (acc ++ [c]) r, List.append_assoc]
    rfl

theorem pRun_escField_comma (f : List Char) (rest : List Char)
    (r : List (List Char)) :
    pRun (escField f ++ ',' :: rest) .unq [] r = pRun rest .unq [] (r ++ [f]) := by
  by_cases hq : csvNeedsQuote f = true
  · rw [escField, if_pos hq, List.cons_append, pRun_unq_quote, List.append_assoc]
    rw [show (['"'] ++ ',' :: rest) = ('"' :: ',' :: rest) from rfl]
    rw [pRun_escBody f (',' :: rest) [] r, pRun_qcl_comma, List.nil_append]
  · have hq' : csvNeedsQuote f = false := Bool.eq_false_iff.mpr hq
    rw [escField, if_neg (by rw [hq']; exact Bool.false_ne_true),
      pRun_unq_content f hq' (',' :: rest) [] r, List.nil_append, pRun_unq_comma]

theorem pRun_escField_nl (f : List Char) (rest : List Char)
    (r : List (List Char)) :
    pRun (escField f ++ '\n' :: rest) .unq [] r =
      (r ++ [f]) :: pRun rest .unq [] [] := by
  by_cases hq : csvNeedsQuote f = true
  · rw [escField, if_pos hq, List.cons_append, pRun_unq_quote, List.append_assoc]
    rw [show (['"'] ++ '\n' :: rest) = ('"' :: '\n' :: rest) from rfl]
    rw [pRun_escBody f ('\n' :: rest) [] r, pRun_qcl_nl, List.nil_append]
  · have hq' : csvNeedsQuote f = false := Bool.eq_false_iff.mpr hq
    rw [escField, if_neg (by rw [hq']; exact Bool.false_ne_true),
      pRun_unq_content f hq' ('\n' :: rest) [] r, List.nil_append, pRun_unq_nl]

theorem pRun_writeRow (row : List (List Char)) :
    row ≠ [] → ∀ (rest : List Char) (r : List (List Char)),
      pRun (writeRow row ++ '\n' :: rest) .unq [] r =
        (r ++ row) :: pRun rest .unq [] [] := by
  induction row with
  | nil => intro h; exact absurd rfl h
  | cons f t ih =>
    intro _ rest r
    cases t with
    | nil => rw [writeRow, pRun_escField_nl]
    | cons g t2 =>
      rw [show writeRow (f :: g :: t2) = escField f ++ ',' :: writeRow (g :: t2)
          from rfl,
        List.append_assoc, List.cons_append, pRun_escField_comma,
        ih (by simp) rest (r ++ [f]), List.append_assoc]
      rfl

theorem pRun_writeCSV (rows : List (List (List Char))) :
    (∀ row ∈ rows, row ≠ []) → pRun (writeCSV rows) .unq [] [] = rows := by
  induction rows with
  | nil => intro _; rfl
  | cons row rs ih =>
    intro h
    rw [show writeCSV (row :: rs) = writeRow row ++ '\n' :: writeCSV rs from rfl,
      pRun_writeRow row (h row (List.mem_cons_self row rs)) (writeCSV rs) [],
      ih (fun r hr => h r (List.mem_cons_of_mem row hr)), List.nil_append]

theorem parse_writeCSVs (rows : List (List String))
    (h : ∀ row ∈ rows, row ≠ []) : parseCSVs (writeCSVs rows) = rows := by
  have hmap : ∀ row ∈ rows.map (fun r => r.map String.data), row ≠ [] := by
    intro row hrow
    obtain ⟨r0, hr0, rfl⟩ := List.mem_map.mp hrow
    simpa using h r0 hr0
  rw [parseCSVs, writeCSVs]
  show (pRun (writeCSV (rows.map (fun r => r.map String.data))) .unq [] []).map
      (fun r => r.map String.mk) = rows
  rw [pRun_writeCSV _ hmap, List.map_map]
  conv_rhs => rw [← List.map_id rows]
  refine List.map_congr_left (fun row _ => ?_)
  show (row.map String.data).map String.mk = id row
  rw [List.map_map, show (String.mk ∘ String.data) = id from funext fun s => rfl,
    List.map_id]
  rfl

/-- Claim C7: serializing any filtered rule collection with the exporter
(`to_csv`, header line plus one line per rule, standard quoting) and
re-parsing the output with a standard delimited-text reader reproduces
exactly the header row and every data row, field for field (numeric fields
are recovered as their exact rendered text, so equality holds within any
formatting tolerance). -/
theorem c7_csv_round_trip (rs : List FRule) :
    parseCSVs (to_csv rs) = csvHeader :: rs.map ruleRow := by
  rw [to_csv]
  refine parse_writeCSVs _ ?_
  intro row hrow
  rcases List.mem_cons.mp hrow with rfl | hr
  · simp [csvHeader]
  · obtain ⟨r0, _, rfl⟩ := List.mem_map.mp hr
    simp [ruleRow]

end Attrition
